import Mathlib

/-!
Verification of the `ika` object pool (`src/lib.rs`).

The pool is modelled shallowly: the Rust struct `Pool<T>` with fields
`data: Vec<T>`, `offsets: Vec<usize>`, `alive_ct: usize` becomes a Lean
structure over `List`s; every public operation is translated into a pure
state-passing function.  Rust panics become `Option`/`none` results (the
bounds checks in `attach`/`detach` run before any mutation, so `none`
means the pool is left untouched).  `usize` indices become `Nat`; reads
through raw indices (`get_unchecked`) become `List.getD _ _ default`,
which agrees with the Rust code on all states satisfying the pool's
documented invariants.
-/

namespace Ika

/-- The pool: `data` is the backing store, `offsets` the indirection
table, `alive_ct` the partition cursor (Rust: `struct Pool<T>`). -/
structure Pool (T : Type) where
  data : List T
  offsets : List Nat
  alive_ct : Nat
  deriving Repr, DecidableEq

variable {T : Type} [Inhabited T]

namespace Pool

/-- Rust `Pool::len`: number of objects in use. -/
def len (p : Pool T) : Nat := p.alive_ct

/-- Rust `Pool::capacity`: `self.offsets.len()`. -/
def capacity (p : Pool T) : Nat := p.offsets.length

/-- Rust `Pool::available`: `self.offsets.len() - self.alive_ct`
(usize subtraction; in every reachable state `alive_ct <= offsets.len()`
so the truncating `Nat` subtraction agrees). -/
def available (p : Pool T) : Nat := p.offsets.length - p.alive_ct

/-- Rust `Pool::is_empty`: `self.available() == 0`. -/
def is_empty (p : Pool T) : Bool := p.available == 0

/-- Rust `offset_to_data_idx`: `*self.offsets.get_unchecked(at)`. -/
def offset_to_data_idx (p : Pool T) (at_ : Nat) : Nat := p.offsets.getD at_ 0

/-- Rust `get_at_offset`: `self.data.get_unchecked(self.offset_to_data_idx(at))`. -/
def get_at_offset (p : Pool T) (at_ : Nat) : T :=
  p.data.getD (p.offset_to_data_idx at_) default

/-- Rust `Pool::get`: bounds-checked read of alive position `at`. -/
def get (p : Pool T) (at_ : Nat) : Option T :=
  if at_ < p.alive_ct then some (p.get_at_offset at_) else none

/-- The sequence of alive values yielded by `Pool::iter`
(`offsets[..alive_ct]` dereferenced through the backing store). -/
def aliveList (p : Pool T) : List T :=
  (p.offsets.take p.alive_ct).map (fun o => p.data.getD o default)

/-- Rust `Pool::new(size)`: `size` default-constructed values,
`offsets = [0, 1, ..., size-1]`, `alive_ct = 0`. -/
def new (size : Nat) : Pool T :=
  { data := List.replicate size default
    offsets := List.range size
    alive_ct := 0 }

/-- Rust `Pool::spawn`: `None` when `is_empty()`, otherwise bump
`alive_ct` and hand out the cell at `offsets[alive_ct]`.  The returned
value is what the handed-out handle points at. -/
def spawn (p : Pool T) : Option T × Pool T :=
  if p.is_empty then (none, p)
  else (some (p.get_at_offset p.alive_ct), { p with alive_ct := p.alive_ct + 1 })

/-- Rust `Pool::spawn_exact(count)`: all-or-nothing allocation of
`count` slots; the returned list holds the values the `count` handles
point at (`offsets[alive_ct..alive_ct+count]`). -/
def spawn_exact (p : Pool T) (count : Nat) : List T × Pool T :=
  if count > p.available then ([], p)
  else (((p.offsets.drop p.alive_ct).take count).map (fun o => p.data.getD o default),
        { p with alive_ct := p.alive_ct + count })

/-- Rust `Pool::spawn_some(count)`: `spawn_exact(min(count, available()))`. -/
def spawn_some (p : Pool T) (count : Nat) : List T × Pool T :=
  p.spawn_exact (min count p.available)

/-- Rust `Pool::please_spawn`: grow by one slot when empty, then
`spawn_unchecked`. -/
def please_spawn (p : Pool T) : T × Pool T :=
  let q : Pool T :=
    if p.is_empty then
      { p with offsets := p.offsets ++ [p.data.length], data := p.data ++ [default] }
    else p
  (q.get_at_offset q.alive_ct, { q with alive_ct := q.alive_ct + 1 })

/-- The growth loop of `please_spawn_some`: `n` times, push
`data.len()` onto `offsets` and a default value onto `data`. -/
def pushSlots (p : Pool T) : Nat → Pool T
  | 0 => p
  | n + 1 =>
      pushSlots
        { p with offsets := p.offsets ++ [p.data.length], data := p.data ++ [default] } n

/-- Rust `Pool::please_spawn_some(count)`: grow by `count - available()`
when short, then `spawn_exact(count)`. -/
def please_spawn_some (p : Pool T) (count : Nat) : List T × Pool T :=
  let q := if count > p.available then p.pushSlots (count - p.available) else p
  q.spawn_exact count

/-- `Vec::swap` on the offsets list (both indices are in range at every
call site reached from a valid state; `List.set` ignores out-of-range
indices). -/
def swapIdx (l : List Nat) (i j : Nat) : List Nat :=
  (l.set i (l.getD j 0)).set j (l.getD i 0)

/-- The loop of Rust `Pool::reclaim`: `k` iterations remain, `i` is the
loop counter, `del` the kill count so far; on a kill `del` increments,
on a survivor with `del > 0` the offsets at `i` and `i - del` swap. -/
def reclaimGo (kill : T → Bool) (data : List T) :
    Nat → Nat → List Nat → Nat → List Nat × Nat
  | _, 0, offsets, del => (offsets, del)
  | i, k + 1, offsets, del =>
      if kill (data.getD (offsets.getD i 0) default) then
        reclaimGo kill data (i + 1) k offsets (del + 1)
      else if del > 0 then
        reclaimGo kill data (i + 1) k (swapIdx offsets i (i - del)) del
      else
        reclaimGo kill data (i + 1) k offsets del

/-- Rust `Pool::reclaim(kill_fn)`: order-preserving reclamation. -/
def reclaim (p : Pool T) (kill : T → Bool) : Pool T :=
  let r := reclaimGo kill p.data 0 p.alive_ct p.offsets 0
  { p with offsets := r.1, alive_ct := p.alive_ct - r.2 }

/-- The loop of Rust `Pool::reclaim_unstable`: `while i < len`, on a
kill decrement `len` and swap positions `i` and `len`; `i` increments
every iteration (also right after a swap — the swapped-in offset is
never examined).  Fuel `k` bounds the iteration count; called with
`k = alive_ct` it never runs out. -/
def reclaimUnstableGo (kill : T → Bool) (data : List T) :
    Nat → Nat → Nat → List Nat → List Nat × Nat
  | 0, _, len, offsets => (offsets, len)
  | k + 1, i, len, offsets =>
      if i < len then
        if kill (data.getD (offsets.getD i 0) default) then
          reclaimUnstableGo kill data k (i + 1) (len - 1) (swapIdx offsets i (len - 1))
        else
          reclaimUnstableGo kill data k (i + 1) len offsets
      else (offsets, len)

/-- Rust `Pool::reclaim_unstable(kill_fn)`. -/
def reclaim_unstable (p : Pool T) (kill : T → Bool) : Pool T :=
  let r := reclaimUnstableGo kill p.data p.alive_ct 0 p.alive_ct p.offsets
  { p with offsets := r.1, alive_ct := r.2 }

/-- Rust `Pool::attach(at, obj)`: `none` models the
`panic!("index out of bounds")` taken when `at > alive_ct` (the check
precedes every mutation); otherwise insert the fresh backing index
`data.len()` at position `at` of `offsets`, bump `alive_ct`, push `obj`. -/
def attach (p : Pool T) (at_ : Nat) (obj : T) : Option (Pool T) :=
  if at_ > p.alive_ct then none
  else some
    { data := p.data ++ [obj]
      offsets := p.offsets.insertIdx at_ p.data.length
      alive_ct := p.alive_ct + 1 }

/-- Rust `Pool::detach(at)`: `none` models the panic when
`at >= alive_ct`; otherwise remove the cell from `data`, remove the
entry from `offsets`, and — only when `at != alive_ct - 1` — decrement
every remaining offset above the removed data index. -/
def detach (p : Pool T) (at_ : Nat) : Option (T × Pool T) :=
  if at_ ≥ p.alive_ct then none
  else
    let data_idx := p.offset_to_data_idx at_
    let ret := p.data.getD data_idx default
    let data' := p.data.eraseIdx data_idx
    let offs := p.offsets.eraseIdx at_
    let offs' :=
      if at_ ≠ p.alive_ct - 1 then
        offs.map (fun o => if o > data_idx then o - 1 else o)
      else offs
    some (ret, { data := data', offsets := offs', alive_ct := p.alive_ct - 1 })

/-- Rust `Pool::sort_the_dead`: sort the free region of `offsets`
ascending when it has at least two entries. -/
def sort_the_dead (p : Pool T) : Pool T :=
  if p.available ≥ 2 then
    { p with offsets :=
        p.offsets.take p.alive_ct ++ (p.offsets.drop p.alive_ct).mergeSort (· ≤ ·) }
  else p

/-- Writing a value through the mutable handle `get_mut(at)` returns
(the only way a caller mutates a stored value): overwrite the backing
cell `data[offsets[at]]`.  Out-of-range `at` yields no handle, hence no
write. -/
def setAt (p : Pool T) (at_ : Nat) (v : T) : Pool T :=
  if at_ < p.alive_ct then
    { p with data := p.data.set (p.offset_to_data_idx at_) v }
  else p

/-- Rust `impl PartialEq for Pool`: zip the two alive iterations,
require pairwise equality, and require equal `len()`. -/
def poolEq [DecidableEq T] (p q : Pool T) : Bool :=
  (((p.aliveList).zip q.aliveList).all fun x => x.1 == x.2) && (p.len == q.len)

end Pool

end Ika

namespace Ika

open Pool

variable {T : Type} [Inhabited T]

/-- Spec invariant I1: the indirection table is a bijection onto the
backing-store indices — `offsets` is a permutation of
`[0, 1, ..., data.length - 1]`. -/
def isPermutation (p : Pool T) : Prop :=
  p.offsets.Perm (List.range p.data.length)

/-- `k` successive calls to `spawn`, keeping only the pool state. -/
def spawnIter (p : Pool T) : Nat → Pool T
  | 0 => p
  | k + 1 => (spawnIter p k).spawn.2

/-- The reachable pool states: everything obtainable from `new` by the
public operations (including writes through `get_mut` handles, modelled
by `setAt`). -/
inductive Reachable : Pool T → Prop where
  | new (size : Nat) : Reachable (Pool.new size)
  | spawn {p : Pool T} : Reachable p → Reachable p.spawn.2
  | spawn_exact {p : Pool T} (count : Nat) :
      Reachable p → Reachable (p.spawn_exact count).2
  | spawn_some {p : Pool T} (count : Nat) :
      Reachable p → Reachable (p.spawn_some count).2
  | please_spawn {p : Pool T} : Reachable p → Reachable p.please_spawn.2
  | please_spawn_some {p : Pool T} (count : Nat) :
      Reachable p → Reachable (p.please_spawn_some count).2
  | reclaim {p : Pool T} (kill : T → Bool) :
      Reachable p → Reachable (p.reclaim kill)
  | reclaim_unstable {p : Pool T} (kill : T → Bool) :
      Reachable p → Reachable (p.reclaim_unstable kill)
  | attach {p q : Pool T} {at_ : Nat} {v : T} :
      Reachable p → p.attach at_ v = some q → Reachable q
  | detach {p q : Pool T} {at_ : Nat} {v : T} :
      Reachable p → p.detach at_ = some (v, q) → Reachable q
  | sort_the_dead {p : Pool T} : Reachable p → Reachable p.sort_the_dead
  | setAt {p : Pool T} (at_ : Nat) (v : T) : Reachable p → Reachable (p.setAt at_ v)

/-- **C1** — refuted on the code (`code_bug`).  The claim says every
public operation preserves the permutation invariant, but `detach`
skips the offset renumbering loop whenever `at == alive_ct - 1`, even
though free-region offsets can still exceed the removed data index.
Failing input: `Pool::new(2)`, one `spawn`, then `detach(0)`.  The
surviving offsets list is `[1]` while the backing store has length 1,
so the single remaining offset is out of range — not a permutation of
`0..1`. -/
theorem c1_detach_breaks_permutation :
    (Pool.new 2 : Pool Nat).spawn.2.detach 0
      = some (0, { data := [0], offsets := [1], alive_ct := 0 }) ∧
    isPermutation ((Pool.new 2 : Pool Nat).spawn.2) ∧
    ¬ isPermutation ({ data := [0], offsets := [1], alive_ct := 0 } : Pool Nat) := by
  refine ⟨by decide, ?_, ?_⟩ <;> simp only [isPermutation] <;> decide

/-- **C2** — refuted on the code (`code_bug`), by the same `detach`
renumbering bug as C1.  Reachable pool
`⟨[10,20,30], [2,1,0], 2⟩` (built by `new 3`, three `spawn`s, writes
through `get_mut`, then `reclaim_unstable` killing the value 10) has
alive sequence `[30, 20]`.  `detach 1` returns `20` but leaves the
stale offset `2` in place; re-`attach 1 20` then makes positions 0 and
1 both read the newly pushed cell, so `get 0` yields `20` instead of
the original `30`, even though `len()` is restored. -/
theorem c2_detach_attach_round_trip_fails :
    (((((Pool.new 3 : Pool Nat).spawn.2.spawn.2.spawn.2.setAt 0 10).setAt 1 20).setAt
        2 30).reclaim_unstable fun v => v == 10)
      = { data := [10, 20, 30], offsets := [2, 1, 0], alive_ct := 2 } ∧
    ({ data := [10, 20, 30], offsets := [2, 1, 0], alive_ct := 2 } : Pool Nat).get 0
      = some 30 ∧
    ({ data := [10, 20, 30], offsets := [2, 1, 0], alive_ct := 2 } : Pool Nat).detach 1
      = some (20, { data := [10, 30], offsets := [2, 0], alive_ct := 1 }) ∧
    ({ data := [10, 30], offsets := [2, 0], alive_ct := 1 } : Pool Nat).attach 1 20
      = some { data := [10, 30, 20], offsets := [2, 2, 0], alive_ct := 2 } ∧
    ({ data := [10, 30, 20], offsets := [2, 2, 0], alive_ct := 2 } : Pool Nat).len = 2 ∧
    ({ data := [10, 30, 20], offsets := [2, 2, 0], alive_ct := 2 } : Pool Nat).get 0
      = some 20 := by
  refine ⟨by decide, by decide, by decide, by decide, by decide, by decide⟩

/-- **C3** — refuted on the code (`code_bug`).  The
`reclaim_unstable` loop increments `i` even in the iteration that
swapped the boundary element down into position `i`, so that element
is never tested against the predicate.  With two alive elements and
the always-true predicate, one element survives (`len = 1`), while the
stable `reclaim` correctly reaches `len = 0`. -/
theorem c3_reclaim_unstable_misses_swapped_element :
    ((Pool.new 2 : Pool Nat).spawn.2.spawn.2.reclaim_unstable fun _ => true).len = 1 ∧
    ((Pool.new 2 : Pool Nat).spawn.2.spawn.2.reclaim fun _ => true).len = 0 := by
  refine ⟨by decide, by decide⟩

/-- **C5** — `spawn_exact(count)` is all-or-nothing: with
`count > available()` it returns no handles and the pool is returned
untouched; otherwise it returns exactly `count` handles and only
advances `alive_ct` by `count` (backing store and offsets untouched). -/
theorem c5_spawn_exact_atomicity (p : Pool T) (count : Nat) :
    (count > p.available → p.spawn_exact count = ([], p)) ∧
    (count ≤ p.available →
      (p.spawn_exact count).1.length = count ∧
      (p.spawn_exact count).2 = { p with alive_ct := p.alive_ct + count }) := by
  constructor
  · intro h
    rw [Pool.spawn_exact, if_pos h]
  · intro h
    rw [Pool.spawn_exact, if_neg (by omega)]
    refine ⟨?_, rfl⟩
    simp only [List.length_map, List.length_take, List.length_drop]
    simp only [Pool.available] at h
    omega

/-- Witness for C5 at `Pool.new 2 : Pool Nat` with counts 3 and 2. -/
theorem c5_spawn_exact_atomicity_witness :
    (Pool.new 2 : Pool Nat).spawn_exact 3 = ([], Pool.new 2) ∧
    ((Pool.new 2 : Pool Nat).spawn_exact 2).1.length = 2 :=
  ⟨(c5_spawn_exact_atomicity (Pool.new 2) 3).1 (by decide),
   ((c5_spawn_exact_atomicity (Pool.new 2) 2).2 (by decide)).1⟩

/-- **C6** — bounds enforcement: `attach(at, v)` panics (modelled as
`none`) exactly when `at > len()`, and `detach(at)` exactly when
`at ≥ len()`.  In the Rust code both checks run before any mutation,
so the panic leaves the pool untouched; in the model the pool value is
simply not consumed. -/
theorem c6_bounds_enforcement (p : Pool T) (at_ : Nat) (v : T) :
    (p.attach at_ v = none ↔ p.len < at_) ∧
    (p.detach at_ = none ↔ p.len ≤ at_) := by
  constructor
  · rw [Pool.attach, Pool.len]
    split
    · simp only [true_iff]; omega
    · simp only [reduceCtorEq, false_iff]; omega
  · rw [Pool.detach, Pool.len]
    split
    · simp only [true_iff]; omega
    · simp only [reduceCtorEq, false_iff]; omega

/-- The offsets list keeps its length through `swapIdx`. -/
lemma swapIdx_length (l : List Nat) (i j : Nat) : (Pool.swapIdx l i j).length = l.length := by
  simp [Pool.swapIdx]

/-- The `reclaim` loop never changes the length of the offsets list. -/
lemma reclaimGo_length (kill : T → Bool) (data : List T) :
    ∀ (k i : Nat) (off : List Nat) (del : Nat),
      (Pool.reclaimGo kill data i k off del).1.length = off.length := by
  intro k
  induction k with
  | zero => intro i off del; rfl
  | succ m ih =>
    intro i off del
    rw [Pool.reclaimGo]
    split
    · rw [ih]
    · split
      · rw [ih, swapIdx_length]
      · rw [ih]

/-- The `reclaim_unstable` loop never changes the length of the offsets
list. -/
lemma reclaimUnstableGo_length (kill : T → Bool) (data : List T) :
    ∀ (k i len : Nat) (off : List Nat),
      (Pool.reclaimUnstableGo kill data k i len off).1.length = off.length := by
  intro k
  induction k with
  | zero => intro i len off; rfl
  | succ m ih =>
    intro i len off
    rw [Pool.reclaimUnstableGo]
    split
    · split
      · rw [ih, swapIdx_length]
      · rw [ih]
    · rfl

/-- The `reclaim_unstable` loop only ever decreases its live bound. -/
lemma reclaimUnstableGo_le (kill : T → Bool) (data : List T) :
    ∀ (k i len : Nat) (off : List Nat),
      (Pool.reclaimUnstableGo kill data k i len off).2 ≤ len := by
  intro k
  induction k with
  | zero => intro i len off; exact Nat.le_refl _
  | succ m ih =>
    intro i len off
    rw [Pool.reclaimUnstableGo]
    split
    · split
      · exact Nat.le_trans (ih _ _ _) (Nat.sub_le _ _)
      · exact ih _ _ _
    · exact Nat.le_refl _

/-- Unfolding of the `please_spawn_some` growth loop: `n` fresh slots
are default values appended to the store, with the matching fresh
indices appended to the offsets. -/
lemma pushSlots_spec (n : Nat) : ∀ p : Pool T,
    (p.pushSlots n).data = p.data ++ List.replicate n default ∧
    (p.pushSlots n).offsets = p.offsets ++ List.range' p.data.length n ∧
    (p.pushSlots n).alive_ct = p.alive_ct := by
  induction n with
  | zero => intro p; simp [Pool.pushSlots]
  | succ m ih =>
    intro p
    rw [Pool.pushSlots]
    obtain ⟨h1, h2, h3⟩ := ih
      { p with offsets := p.offsets ++ [p.data.length], data := p.data ++ [default] }
    refine ⟨?_, ?_, h3⟩
    · rw [h1]
      simp [List.replicate_succ]
    · rw [h2]
      simp [List.range'_succ]

/-- `spawn` keeps the cursor within the offsets table. -/
lemma alive_le_spawn (p : Pool T) (h : p.alive_ct ≤ p.offsets.length) :
    p.spawn.2.alive_ct ≤ p.spawn.2.offsets.length := by
  rw [Pool.spawn]
  split
  · exact h
  · rename_i hc
    simp only [Pool.is_empty, Pool.available, beq_iff_eq] at hc
    show p.alive_ct + 1 ≤ p.offsets.length
    omega

/-- `spawn_exact` keeps the cursor within the offsets table. -/
lemma alive_le_spawn_exact (p : Pool T) (count : Nat) (h : p.alive_ct ≤ p.offsets.length) :
    (p.spawn_exact count).2.alive_ct ≤ (p.spawn_exact count).2.offsets.length := by
  rw [Pool.spawn_exact]
  split
  · exact h
  · rename_i hc
    simp only [Pool.available, gt_iff_lt, not_lt] at hc
    show p.alive_ct + count ≤ p.offsets.length
    omega

/-- `please_spawn` keeps the cursor within the offsets table. -/
lemma alive_le_please_spawn (p : Pool T) (h : p.alive_ct ≤ p.offsets.length) :
    p.please_spawn.2.alive_ct ≤ p.please_spawn.2.offsets.length := by
  rw [Pool.please_spawn]
  by_cases hc : p.is_empty
  · simp only [hc, if_true]
    show p.alive_ct + 1 ≤ (p.offsets ++ [p.data.length]).length
    simp only [List.length_append, List.length_cons, List.length_nil]
    omega
  · simp only [hc, if_false]
    simp only [Pool.is_empty, Pool.available, beq_iff_eq] at hc
    show p.alive_ct + 1 ≤ p.offsets.length
    omega

/-- `please_spawn_some` keeps the cursor within the offsets table. -/
lemma alive_le_please_spawn_some (p : Pool T) (count : Nat)
    (h : p.alive_ct ≤ p.offsets.length) :
    (p.please_spawn_some count).2.alive_ct ≤ (p.please_spawn_some count).2.offsets.length := by
  rw [Pool.please_spawn_some]
  by_cases hc : count > p.available
  · simp only [hc, if_true]
    obtain ⟨h1, h2, h3⟩ := pushSlots_spec (count - p.available) p
    apply alive_le_spawn_exact
    rw [h2, h3, List.length_append, List.length_range']
    omega
  · simp only [hc, if_false]
    exact alive_le_spawn_exact p count h

/-- `reclaim` keeps the cursor within the offsets table. -/
lemma alive_le_reclaim (p : Pool T) (kill : T → Bool) (h : p.alive_ct ≤ p.offsets.length) :
    (p.reclaim kill).alive_ct ≤ (p.reclaim kill).offsets.length := by
  show p.alive_ct - (Pool.reclaimGo kill p.data 0 p.alive_ct p.offsets 0).2
      ≤ (Pool.reclaimGo kill p.data 0 p.alive_ct p.offsets 0).1.length
  rw [reclaimGo_length]
  omega

/-- `reclaim_unstable` keeps the cursor within the offsets table. -/
lemma alive_le_reclaim_unstable (p : Pool T) (kill : T → Bool)
    (h : p.alive_ct ≤ p.offsets.length) :
    (p.reclaim_unstable kill).alive_ct ≤ (p.reclaim_unstable kill).offsets.length := by
  show (Pool.reclaimUnstableGo kill p.data p.alive_ct 0 p.alive_ct p.offsets).2
      ≤ (Pool.reclaimUnstableGo kill p.data p.alive_ct 0 p.alive_ct p.offsets).1.length
  rw [reclaimUnstableGo_length]
  exact Nat.le_trans (reclaimUnstableGo_le kill p.data p.alive_ct 0 p.alive_ct p.offsets) h

omit [Inhabited T] in
/-- A successful `attach` keeps the cursor within the offsets table. -/
lemma alive_le_attach (p q : Pool T) (at_ : Nat) (v : T)
    (h : p.alive_ct ≤ p.offsets.length) (heq : p.attach at_ v = some q) :
    q.alive_ct ≤ q.offsets.length := by
  rw [Pool.attach] at heq
  split at heq
  · exact absurd heq (by simp)
  · rename_i hc
    simp only [gt_iff_lt, not_lt] at hc
    injection heq with heq'
    subst heq'
    show p.alive_ct + 1 ≤ (p.offsets.insertIdx at_ p.data.length).length
    rw [List.length_insertIdx at_ p.offsets (by omega)]
    omega

/-- A successful `detach` keeps the cursor within the offsets table. -/
lemma alive_le_detach (p q : Pool T) (at_ : Nat) (v : T)
    (h : p.alive_ct ≤ p.offsets.length) (heq : p.detach at_ = some (v, q)) :
    q.alive_ct ≤ q.offsets.length := by
  rw [Pool.detach] at heq
  split at heq
  · exact absurd heq (by simp)
  · rename_i hc
    simp only [ge_iff_le, not_le] at hc
    simp only at heq
    injection heq with heq'
    injection heq' with hv hq
    subst hq
    by_cases hat : at_ ≠ p.alive_ct - 1
    · show p.alive_ct - 1 ≤ (if at_ ≠ p.alive_ct - 1 then _ else _ : List Nat).length
      rw [if_pos hat, List.length_map, List.length_eraseIdx, if_pos (by omega)]
      omega
    · show p.alive_ct - 1 ≤ (if at_ ≠ p.alive_ct - 1 then _ else _ : List Nat).length
      rw [if_neg hat, List.length_eraseIdx, if_pos (by omega)]
      omega

omit [Inhabited T] in
/-- `sort_the_dead` keeps the cursor within the offsets table. -/
lemma alive_le_sort_the_dead (p : Pool T) (h : p.alive_ct ≤ p.offsets.length) :
    p.sort_the_dead.alive_ct ≤ p.sort_the_dead.offsets.length := by
  rw [Pool.sort_the_dead]
  split
  · show p.alive_ct
        ≤ (p.offsets.take p.alive_ct ++ (p.offsets.drop p.alive_ct).mergeSort (· ≤ ·)).length
    simp only [List.length_append, List.length_take, List.length_mergeSort, List.length_drop]
    omega
  · exact h

omit [Inhabited T] in
/-- Writing through a `get_mut` handle keeps the cursor within the
offsets table. -/
lemma alive_le_setAt (p : Pool T) (at_ : Nat) (v : T) (h : p.alive_ct ≤ p.offsets.length) :
    (p.setAt at_ v).alive_ct ≤ (p.setAt at_ v).offsets.length := by
  rw [Pool.setAt]
  split
  · exact h
  · exact h

/-- **C7** — alive/free accounting: in every reachable state the
partition cursor stays within the offsets table, so
`len() + available() == capacity()` and `available()` never
underflows. -/
theorem c7_alive_free_accounting (p : Pool T) (h : Reachable p) :
    p.alive_ct ≤ p.offsets.length ∧ p.len + p.available = p.capacity := by
  have key : p.alive_ct ≤ p.offsets.length := by
    induction h with
    | new size => simp [Pool.new]
    | spawn _ ih => exact alive_le_spawn _ ih
    | spawn_exact count _ ih => exact alive_le_spawn_exact _ count ih
    | spawn_some count _ ih => exact alive_le_spawn_exact _ _ ih
    | please_spawn _ ih => exact alive_le_please_spawn _ ih
    | please_spawn_some count _ ih => exact alive_le_please_spawn_some _ count ih
    | reclaim kill _ ih => exact alive_le_reclaim _ kill ih
    | reclaim_unstable kill _ ih => exact alive_le_reclaim_unstable _ kill ih
    | attach _ heq ih => exact alive_le_attach _ _ _ _ ih heq
    | detach _ heq ih => exact alive_le_detach _ _ _ _ ih heq
    | sort_the_dead _ ih => exact alive_le_sort_the_dead _ ih
    | setAt at_ v _ ih => exact alive_le_setAt _ at_ v ih
  refine ⟨key, ?_⟩
  simp only [Pool.len, Pool.available, Pool.capacity]
  omega

/-- Witness for C7: the state after `new 3` and one `spawn`. -/
theorem c7_alive_free_accounting_witness :
    ((Pool.new 3 : Pool Nat).spawn.2.alive_ct ≤ (Pool.new 3 : Pool Nat).spawn.2.offsets.length) ∧
    (Pool.new 3 : Pool Nat).spawn.2.len + (Pool.new 3 : Pool Nat).spawn.2.available
      = (Pool.new 3 : Pool Nat).spawn.2.capacity :=
  c7_alive_free_accounting _ (Reachable.spawn (Reachable.new 3))

/-- The success branch of `spawn_exact`: with `count ≤ available()` the
returned handle list has length `count` and only the cursor moves. -/
lemma spawn_exact_success (p : Pool T) (count : Nat) (h : count ≤ p.available) :
    (p.spawn_exact count).1.length = count ∧
    (p.spawn_exact count).2 = { p with alive_ct := p.alive_ct + count } := by
  rw [Pool.spawn_exact, if_neg (by omega)]
  refine ⟨?_, rfl⟩
  simp only [List.length_map, List.length_take, List.length_drop]
  simp only [Pool.available] at h
  omega

/-- **C8** — `please_spawn_some(count)` never fails: it grows the
capacity by exactly `count - available()` (truncated subtraction, i.e.
`max(0, count - available())`), returns exactly `count` handles,
advances the cursor by `count`, and every newly grown slot holds the
default value. -/
theorem c8_please_spawn_some_never_fails (p : Pool T) (count : Nat)
    (h : p.alive_ct ≤ p.offsets.length) :
    (p.please_spawn_some count).1.length = count ∧
    (p.please_spawn_some count).2.alive_ct = p.alive_ct + count ∧
    (p.please_spawn_some count).2.capacity = p.capacity + (count - p.available) ∧
    (p.please_spawn_some count).2.data
      = p.data ++ List.replicate (count - p.available) default := by
  rw [Pool.please_spawn_some]
  simp only [Pool.capacity]
  by_cases hc : count > p.available
  · simp only [hc, if_true]
    obtain ⟨h1, h2, h3⟩ := pushSlots_spec (count - p.available) p
    have hav : count ≤ (p.pushSlots (count - p.available)).available := by
      show count ≤ (p.pushSlots (count - p.available)).offsets.length
          - (p.pushSlots (count - p.available)).alive_ct
      rw [h2, h3, List.length_append, List.length_range']
      simp only [Pool.available] at hc ⊢
      omega
    obtain ⟨g1, g2⟩ := spawn_exact_success (p.pushSlots (count - p.available)) count hav
    refine ⟨g1, ?_, ?_, ?_⟩
    · rw [g2]
      show (p.pushSlots (count - p.available)).alive_ct + count = p.alive_ct + count
      rw [h3]
    · rw [g2]
      show (p.pushSlots (count - p.available)).offsets.length
        = p.offsets.length + (count - p.available)
      rw [h2, List.length_append, List.length_range']
    · rw [g2]
      show (p.pushSlots (count - p.available)).data
        = p.data ++ List.replicate (count - p.available) default
      exact h1
  · simp only [hc, if_false]
    obtain ⟨g1, g2⟩ := spawn_exact_success p count (by omega)
    have hz : count - p.available = 0 := by omega
    rw [hz]
    refine ⟨g1, ?_, ?_, ?_⟩
    · rw [g2]
    · rw [g2]
      show p.offsets.length = p.offsets.length + 0
      omega
    · rw [g2]
      show p.data = p.data ++ List.replicate 0 default
      simp

/-- Witness for C8 at `Pool.new 1 : Pool Nat` with `count = 3`. -/
theorem c8_please_spawn_some_never_fails_witness :
    ((Pool.new 1 : Pool Nat).please_spawn_some 3).1.length = 3 ∧
    ((Pool.new 1 : Pool Nat).please_spawn_some 3).2.alive_ct
      = (Pool.new 1 : Pool Nat).alive_ct + 3 ∧
    ((Pool.new 1 : Pool Nat).please_spawn_some 3).2.capacity
      = (Pool.new 1 : Pool Nat).capacity + (3 - (Pool.new 1 : Pool Nat).available) ∧
    ((Pool.new 1 : Pool Nat).please_spawn_some 3).2.data
      = (Pool.new 1 : Pool Nat).data
          ++ List.replicate (3 - (Pool.new 1 : Pool Nat).available) default :=
  c8_please_spawn_some_never_fails (Pool.new 1) 3 (by decide)

/-- After `k` calls to `spawn` starting from `new size`, the offsets
table is untouched and the cursor sits at `min k size`. -/
lemma spawnIter_new_spec (size : Nat) :
    ∀ k : Nat, (spawnIter (Pool.new size : Pool T) k).alive_ct = min k size ∧
      (spawnIter (Pool.new size : Pool T) k).offsets = List.range size := by
  intro k
  induction k with
  | zero => exact ⟨by simp [spawnIter, Pool.new], rfl⟩
  | succ n ih =>
    obtain ⟨h1, h2⟩ := ih
    rw [spawnIter, Pool.spawn]
    by_cases hc : (spawnIter (Pool.new size : Pool T) n).is_empty
    · rw [if_pos hc]
      simp only [Pool.is_empty, Pool.available, beq_iff_eq, h2, List.length_range, h1] at hc
      refine ⟨?_, h2⟩
      rw [h1]
      omega
    · rw [if_neg hc]
      simp only [Pool.is_empty, Pool.available, beq_iff_eq, h2, List.length_range, h1] at hc
      refine ⟨?_, h2⟩
      show (spawnIter (Pool.new size : Pool T) n).alive_ct + 1 = min (n + 1) size
      rw [h1]
      omega

/-- **C9** — `spawn` returns empty exactly when `available() == 0`, in
which case the pool is returned untouched; starting from `new size`
(whose capacity is `size`), each of the first `size` spawns succeeds,
after which `available() == 0` and the next `spawn` is an unchanged-
state no-op returning empty. -/
theorem c9_spawn_exhaustion (p : Pool T) (size k : Nat) :
    (p.available = 0 → p.spawn = (none, p)) ∧
    (p.available ≠ 0 → p.spawn.1 ≠ none) ∧
    (Pool.new size : Pool T).capacity = size ∧
    (k < size → (spawnIter (Pool.new size : Pool T) k).spawn.1 ≠ none) ∧
    (spawnIter (Pool.new size : Pool T) size).available = 0 ∧
    (spawnIter (Pool.new size : Pool T) size).spawn
      = (none, spawnIter (Pool.new size : Pool T) size) := by
  have hnone : ∀ q : Pool T, q.available = 0 → q.spawn = (none, q) := by
    intro q hq
    rw [Pool.spawn, if_pos]
    simp [Pool.is_empty, hq]
  have hsome : ∀ q : Pool T, q.available ≠ 0 → q.spawn.1 ≠ none := by
    intro q hq
    rw [Pool.spawn, if_neg]
    · simp
    · simp [Pool.is_empty, hq]
  have havail : ∀ j : Nat,
      (spawnIter (Pool.new size : Pool T) j).available = size - min j size := by
    intro j
    obtain ⟨h1, h2⟩ := spawnIter_new_spec (T := T) size j
    simp [Pool.available, h1, h2]
  refine ⟨hnone p, hsome p, by simp [Pool.capacity, Pool.new], ?_, ?_, ?_⟩
  · intro hk
    apply hsome
    rw [havail k]
    omega
  · rw [havail size]
    omega
  · exact hnone _ (by rw [havail size]; omega)

/-- Witness for C9 with `size = 2`, `k = 1`, and the empty pool. -/
theorem c9_spawn_exhaustion_witness :
    (Pool.new 0 : Pool Nat).spawn = (none, Pool.new 0) ∧
    (spawnIter (Pool.new 2 : Pool Nat) 1).spawn.1 ≠ none ∧
    (spawnIter (Pool.new 2 : Pool Nat) 2).available = 0 :=
  ⟨(c9_spawn_exhaustion (Pool.new 0 : Pool Nat) 2 1).1 (by decide),
   (c9_spawn_exhaustion (Pool.new 0 : Pool Nat) 2 1).2.2.2.1 (by decide),
   (c9_spawn_exhaustion (Pool.new 0 : Pool Nat) 2 1).2.2.2.2.1⟩

/-- Pairwise `==` over the zip of two equal-length lists is list
equality. -/
lemma zip_all_beq_iff {α : Type} [DecidableEq α] (l₁ : List α) :
    ∀ l₂ : List α, l₁.length = l₂.length →
      (((l₁.zip l₂).all fun x => x.1 == x.2) = true ↔ l₁ = l₂) := by
  induction l₁ with
  | nil =>
    intro l₂ h
    cases l₂ with
    | nil => simp
    | cons b l2 => simp at h
  | cons a l ih =>
    intro l₂ h
    cases l₂ with
    | nil => simp at h
    | cons b l2 =>
      simp only [List.zip_cons_cons, List.all_cons, Bool.and_eq_true, beq_iff_eq,
        List.cons.injEq]
      rw [ih l2 (by simpa using h)]

/-- In a state with the cursor in range, the alive iteration has
exactly `len()` entries. -/
lemma aliveList_length (p : Pool T) (h : p.alive_ct ≤ p.offsets.length) :
    p.aliveList.length = p.len := by
  simp only [Pool.aliveList, Pool.len, List.length_map, List.length_take]
  omega

/-- Entry `i` of the alive iteration is the cell `get_at_offset i`. -/
lemma aliveList_getElem (p : Pool T) (i : Nat) (hi : i < p.aliveList.length) :
    p.aliveList[i] = p.get_at_offset i := by
  have hoff : i < p.offsets.length := by
    simp only [Pool.aliveList, List.length_map, List.length_take] at hi
    omega
  simp only [Pool.aliveList, List.getElem_map, List.getElem_take, Pool.get_at_offset,
    Pool.offset_to_data_idx]
  rw [List.getD_eq_getElem p.offsets 0 hoff]

/-- `get i` on an alive position agrees with the alive iteration. -/
lemma get_eq_aliveList_getElem? (p : Pool T) (h : p.alive_ct ≤ p.offsets.length)
    (i : Nat) (hi : i < p.len) : p.get i = p.aliveList[i]? := by
  have hlen : i < p.aliveList.length := by
    rw [aliveList_length p h]
    exact hi
  rw [Pool.get, if_pos (show i < p.alive_ct from hi), List.getElem?_eq_getElem hlen, aliveList_getElem]

/-- Under equal `len()`, positionwise `get` equality is equality of the
alive iterations. -/
lemma aliveList_eq_iff_get (p q : Pool T)
    (hp : p.alive_ct ≤ p.offsets.length) (hq : q.alive_ct ≤ q.offsets.length)
    (hlen : p.len = q.len) :
    p.aliveList = q.aliveList ↔ ∀ i, i < p.len → p.get i = q.get i := by
  constructor
  · intro he i hi
    rw [get_eq_aliveList_getElem? p hp i hi, get_eq_aliveList_getElem? q hq i (hlen ▸ hi),
      he]
  · intro hpt
    apply List.ext_getElem?
    intro n
    by_cases hn : n < p.len
    · rw [← get_eq_aliveList_getElem? p hp n hn,
        ← get_eq_aliveList_getElem? q hq n (hlen ▸ hn)]
      exact hpt n hn
    · rw [List.getElem?_eq_none, List.getElem?_eq_none]
      · rw [aliveList_length q hq, ← hlen]
        omega
      · rw [aliveList_length p hp]
        omega

/-- **C10** — pool equality looks only at the alive region: `==` holds
exactly when `len()` agrees and every alive position holds equal
values; capacity is ignored, and two pools of different capacities can
compare equal (`new 1 == new 2`). -/
theorem c10_eq_ignores_capacity [DecidableEq T] (p q : Pool T)
    (hp : p.alive_ct ≤ p.offsets.length) (hq : q.alive_ct ≤ q.offsets.length) :
    (Pool.poolEq p q = true ↔ p.len = q.len ∧ ∀ i, i < p.len → p.get i = q.get i) ∧
    Pool.poolEq (Pool.new 1 : Pool Nat) (Pool.new 2) = true ∧
    (Pool.new 1 : Pool Nat).capacity ≠ (Pool.new 2 : Pool Nat).capacity := by
  refine ⟨?_, by decide, by decide⟩
  rw [Pool.poolEq, Bool.and_eq_true, beq_iff_eq]
  constructor
  · rintro ⟨hzip, hlen⟩
    have hll : p.aliveList.length = q.aliveList.length := by
      rw [aliveList_length p hp, aliveList_length q hq, hlen]
    have hle := (zip_all_beq_iff p.aliveList q.aliveList hll).1 hzip
    exact ⟨hlen, (aliveList_eq_iff_get p q hp hq hlen).1 hle⟩
  · rintro ⟨hlen, hpt⟩
    have hll : p.aliveList.length = q.aliveList.length := by
      rw [aliveList_length p hp, aliveList_length q hq, hlen]
    exact ⟨(zip_all_beq_iff _ _ hll).2 ((aliveList_eq_iff_get p q hp hq hlen).2 hpt), hlen⟩

/-- Witness for C10 at two concrete pools of different capacity with
the same single alive value. -/
theorem c10_eq_ignores_capacity_witness :
    (Pool.poolEq ({ data := [5], offsets := [0], alive_ct := 1 } : Pool Nat)
        { data := [5, 9], offsets := [0, 1], alive_ct := 1 } = true ↔
      ({ data := [5], offsets := [0], alive_ct := 1 } : Pool Nat).len
          = ({ data := [5, 9], offsets := [0, 1], alive_ct := 1 } : Pool Nat).len ∧
        ∀ i, i < ({ data := [5], offsets := [0], alive_ct := 1 } : Pool Nat).len →
          ({ data := [5], offsets := [0], alive_ct := 1 } : Pool Nat).get i
            = ({ data := [5, 9], offsets := [0, 1], alive_ct := 1 } : Pool Nat).get i) ∧
    Pool.poolEq (Pool.new 1 : Pool Nat) (Pool.new 2) = true ∧
    (Pool.new 1 : Pool Nat).capacity ≠ (Pool.new 2 : Pool Nat).capacity :=
  c10_eq_ignores_capacity { data := [5], offsets := [0], alive_ct := 1 }
    { data := [5, 9], offsets := [0, 1], alive_ct := 1 } (by decide) (by decide)

/-- `set` at or beyond the taken range does not change the taken part. -/
lemma take_set_of_le {α : Type} (l : List α) (m n : Nat) (a : α) (h : n ≤ m) :
    (l.set m a).take n = l.take n := by
  apply List.ext_getElem
  · simp
  · intro i h1 h2
    rw [List.getElem_take, List.getElem_take]
    apply List.getElem_set_ne
    simp only [List.length_take, List.length_set] at h1
    omega

/-- `getD` at a position a `set` hit, when in range. -/
lemma getD_set_self_of_lt (l : List Nat) (n a : Nat) (h : n < l.length) :
    (l.set n a).getD n 0 = a := by
  rw [List.getD_eq_getElem?_getD, List.getElem?_set_self h]
  rfl

/-- `getD` at positions a `swapIdx` did not touch. -/
lemma swapIdx_getD_ne (l : List Nat) (i j m : Nat) (h1 : m ≠ i) (h2 : m ≠ j) :
    (Pool.swapIdx l i j).getD m 0 = l.getD m 0 := by
  rw [Pool.swapIdx, List.getD_eq_getElem?_getD, List.getElem?_set_ne (by omega),
    List.getElem?_set_ne (by omega), ← List.getD_eq_getElem?_getD]

/-- `getD` at the second position of a `swapIdx` reads the first. -/
lemma swapIdx_getD_right (l : List Nat) (i j : Nat) (h : j < l.length) :
    (Pool.swapIdx l i j).getD j 0 = l.getD i 0 := by
  rw [Pool.swapIdx]
  exact getD_set_self_of_lt _ _ _ (by simpa using h)

/-- `take (n + 1)` via `getD` when `n` is in range. -/
lemma take_succ_getD (l : List Nat) (n : Nat) (h : n < l.length) :
    l.take (n + 1) = l.take n ++ [l.getD n 0] := by
  rw [List.take_succ, List.getElem?_eq_getElem h, List.getD_eq_getElem _ _ h]
  rfl

/-- Counting survivors and kills partitions a list. -/
lemma countP_not_add (pk : Nat → Bool) (l : List Nat) :
    l.countP (fun o => !(pk o)) + l.countP pk = l.length := by
  induction l with
  | nil => rfl
  | cons a t ih =>
    rw [List.countP_cons, List.countP_cons, List.length_cons]
    cases h : pk a <;> simp [h] <;> omega

/-- Loop invariant for the stable `reclaim` scan, by induction on the
remaining iteration count `k`: at loop counter `i` with kill count
`del = ` (kills among the first `i` original offsets), the prefix
`off.take (i - del)` holds exactly the surviving original offsets in
order and positions `≥ i` of `off` still agree with `orig`; hence the
loop returns the total kill count, and an offsets list whose survivor
prefix is the stable filter of the original `i + k` offsets. -/
lemma reclaimGo_invariant (kill : T → Bool) (data : List T) (orig : List Nat) :
    ∀ (k i del : Nat) (off : List Nat),
      i + k ≤ orig.length →
      off.length = orig.length →
      del = ((orig.take i).countP fun o => kill (data.getD o default)) →
      (∀ j, i ≤ j → off.getD j 0 = orig.getD j 0) →
      off.take (i - del)
        = ((orig.take i).filter fun o => !(kill (data.getD o default))) →
      (Pool.reclaimGo kill data i k off del).2
          = ((orig.take (i + k)).countP fun o => kill (data.getD o default)) ∧
      (Pool.reclaimGo kill data i k off del).1.take
            (i + k - (Pool.reclaimGo kill data i k off del).2)
        = ((orig.take (i + k)).filter fun o => !(kill (data.getD o default))) := by
  intro k
  induction k with
  | zero =>
    intro i del off hik hlen hdel hoff htake
    simp only [Pool.reclaimGo, Nat.add_zero]
    exact ⟨hdel, htake⟩
  | succ k ih =>
    intro i del off hik hlen hdel hoff htake
    have hi : i < orig.length := by omega
    have ho : off.getD i 0 = orig.getD i 0 := hoff i (Nat.le_refl i)
    have hdelle : del ≤ i := by
      rw [hdel]
      exact Nat.le_trans (List.countP_le_length _) (by rw [List.length_take]; omega)
    have htake1 : orig.take (i + 1) = orig.take i ++ [orig.getD i 0] :=
      take_succ_getD orig i hi
    have hix : i + (k + 1) = (i + 1) + k := by omega
    simp only [Pool.reclaimGo, ho]
    by_cases hkill : kill (data.getD (orig.getD i 0) default) = true
    · rw [if_pos hkill, hix]
      apply ih (i + 1) (del + 1) off (by omega) hlen
      · rw [htake1, List.countP_append, ← hdel, List.countP_singleton, if_pos hkill]
      · exact fun j hj => hoff j (by omega)
      · have h1 : (i + 1) - (del + 1) = i - del := by omega
        rw [h1, htake, htake1, List.filter_append, List.filter_singleton, hkill]
        simp
    · have hkf : kill (data.getD (orig.getD i 0) default) = false := by
        simpa using hkill
      rw [if_neg hkill]
      by_cases hdelpos : del > 0
      · rw [if_pos hdelpos, hix]
        have hidlt : i - del < off.length := by rw [hlen]; omega
        apply ih (i + 1) del (Pool.swapIdx off i (i - del)) (by omega)
          (by rw [swapIdx_length, hlen])
        · rw [htake1, List.countP_append, ← hdel, List.countP_singleton, if_neg hkill]
          omega
        · intro j hj
          rw [swapIdx_getD_ne off i (i - del) j (by omega) (by omega)]
          exact hoff j (by omega)
        · have h1 : (i + 1) - del = (i - del) + 1 := by omega
          rw [h1, take_succ_getD (Pool.swapIdx off i (i - del)) (i - del)
            (by rw [swapIdx_length, hlen]; omega)]
          have h2 : (Pool.swapIdx off i (i - del)).take (i - del) = off.take (i - del) := by
            rw [Pool.swapIdx, take_set_of_le _ _ _ _ (Nat.le_refl (i - del)),
              take_set_of_le _ _ _ _ (by omega)]
          have h3 : (Pool.swapIdx off i (i - del)).getD (i - del) 0 = orig.getD i 0 := by
            rw [swapIdx_getD_right off i (i - del) hidlt, ho]
          rw [h2, h3, htake, htake1, List.filter_append, List.filter_singleton, hkf]
          simp
      · rw [if_neg hdelpos, hix]
        have hdel0 : del = 0 := by omega
        apply ih (i + 1) del off (by omega) hlen
        · rw [htake1, List.countP_append, ← hdel, List.countP_singleton, if_neg hkill]
          omega
        · exact fun j hj => hoff j (by omega)
        · subst hdel0
          rw [Nat.sub_zero, take_succ_getD off i (by rw [hlen]; omega), ho]
          rw [Nat.sub_zero] at htake
          rw [htake, htake1, List.filter_append, List.filter_singleton, hkf]
          simp

/-- **C4** — the order-preserving `reclaim` is a stable filter of the
alive region: afterwards `len()` is the number of surviving alive
elements and iteration yields exactly the survivors, in their original
relative order. -/
theorem c4_reclaim_is_stable_filter (p : Pool T) (kill : T → Bool)
    (h : p.alive_ct ≤ p.offsets.length) :
    (p.reclaim kill).len = (p.aliveList.filter fun v => !(kill v)).length ∧
    (p.reclaim kill).aliveList = p.aliveList.filter fun v => !(kill v) := by
  obtain ⟨hc, ht⟩ := reclaimGo_invariant kill p.data p.offsets p.alive_ct 0 0 p.offsets
    (by omega) rfl (by simp) (fun j _ => rfl) (by simp)
  simp only [Nat.zero_add] at hc ht
  have hr : p.reclaim kill
      = Pool.mk p.data (Pool.reclaimGo kill p.data 0 p.alive_ct p.offsets 0).1
          (p.alive_ct - (Pool.reclaimGo kill p.data 0 p.alive_ct p.offsets 0).2) :=
    rfl
  constructor
  · rw [hr]
    show p.alive_ct - (Pool.reclaimGo kill p.data 0 p.alive_ct p.offsets 0).2 = _
    rw [hc, Pool.aliveList, List.filter_map, List.length_map, ← List.countP_eq_length_filter]
    have h2 : (p.offsets.take p.alive_ct).countP (fun o => !(kill (p.data.getD o default)))
          + (p.offsets.take p.alive_ct).countP (fun o => kill (p.data.getD o default))
        = (p.offsets.take p.alive_ct).length := countP_not_add _ _
    have h3 : (p.offsets.take p.alive_ct).length = p.alive_ct := by
      rw [List.length_take]
      omega
    simp only [Function.comp_def]
    omega
  · rw [hr, Pool.aliveList, Pool.aliveList]
    show ((Pool.reclaimGo kill p.data 0 p.alive_ct p.offsets 0).1.take
          (p.alive_ct - (Pool.reclaimGo kill p.data 0 p.alive_ct p.offsets 0).2)).map
          (fun o => p.data.getD o default)
        = ((p.offsets.take p.alive_ct).map (fun o => p.data.getD o default)).filter
            (fun v => !(kill v))
    rw [ht, List.filter_map]
    simp only [Function.comp_def]

/-- Witness for C4 at the pool `⟨[10,20,30],[0,1,2],3⟩` with the
predicate killing the value 20: survivors `[10, 30]` in order. -/
theorem c4_reclaim_is_stable_filter_witness :
    (({ data := [10, 20, 30], offsets := [0, 1, 2], alive_ct := 3 } : Pool Nat).reclaim
        (fun v => v == 20)).len
      = ((({ data := [10, 20, 30], offsets := [0, 1, 2], alive_ct := 3 } : Pool Nat).aliveList.filter
          fun v => !(v == 20)).length) ∧
    (({ data := [10, 20, 30], offsets := [0, 1, 2], alive_ct := 3 } : Pool Nat).reclaim
        (fun v => v == 20)).aliveList
      = ({ data := [10, 20, 30], offsets := [0, 1, 2], alive_ct := 3 } : Pool Nat).aliveList.filter
          fun v => !(v == 20) :=
  c4_reclaim_is_stable_filter
    { data := [10, 20, 30], offsets := [0, 1, 2], alive_ct := 3 } (fun v => v == 20)
    (by decide)

end Ika
